import Mathlib

/-!
Verification development for the JJWXC topten scraper (src/晋江论坛.py).

The source program fetches a ranked-list HTML page, parses it into channels of
items with BeautifulSoup, fetches one detail page per item, and assembles a
dataset.  Here the parsed DOM (the result of BeautifulSoup(html, "html.parser"))
is embedded as an inductive tree `Node`, and the pure parsing/extraction
functions of the source are translated over it.  Network fetching is embedded
as an explicit oracle `String → Except Unit Node`.
-/

namespace Jjwxc

/-- Characters Python treats as whitespace (str.strip, str.isspace, regex \s
in unicode mode): the usual ASCII controls plus the common Unicode space
characters that occur in practice (NBSP, ideographic space, etc.). -/
def isPySpace (c : Char) : Bool :=
  c = ' ' || c = '\t' || c = '\n' || c = '\r' ||
  c = '\x0b' || c = '\x0c' ||
  c = '\x1c' || c = '\x1d' || c = '\x1e' || c = '\x1f' ||
  c = '\x85' || c = '\xa0' || c = ' ' ||
  (' ' ≤ c && c ≤ ' ') ||
  c = ' ' || c = ' ' || c = ' ' || c = ' ' || c = '　'

/-- Line-boundary characters of Python str.splitlines. -/
def isLineBreak (c : Char) : Bool :=
  c = '\n' || c = '\r' || c = '\x0b' || c = '\x0c' ||
  c = '\x1c' || c = '\x1d' || c = '\x1e' || c = '\x85' ||
  c = ' ' || c = ' '

/-- Python str.strip() on the left, over a character list. -/
def pyStripLeftL (l : List Char) : List Char := l.dropWhile isPySpace

/-- Python str.strip() over a character list. -/
def pyStripL (l : List Char) : List Char :=
  ((pyStripLeftL l).reverse.dropWhile isPySpace).reverse

/-- Python str.strip(). -/
def pyStrip (s : String) : String := ⟨pyStripL s.data⟩

/-- Does the second list occur as a leading segment of the first? -/
def leadMatch : List Char → List Char → Bool
  | _, [] => true
  | [], _ :: _ => false
  | c :: cs, d :: ds => c = d && leadMatch cs ds

/-- Does `sub` occur as a contiguous segment of `l`?  (Python `in` on str,
also re.search of an escaped literal.) -/
def listContainsSeg : List Char → List Char → Bool
  | l, sub => if leadMatch l sub then true else
      match l with
      | [] => false
      | _ :: rest => listContainsSeg rest sub

/-- Python substring test `sub in s`. -/
def strContains (s sub : String) : Bool := listContainsSeg s.data sub.data

/-- re.sub(r"\s+", " ", s): collapse every whitespace run to a single space.
The flag records whether the previous character was part of a run. -/
def collapseWsAux : Bool → List Char → List Char
  | _, [] => []
  | prev, c :: rest =>
      if isPySpace c then
        if prev then collapseWsAux true rest else ' ' :: collapseWsAux true rest
      else c :: collapseWsAux false rest

/-- re.sub(r"\s+", " ", s). -/
def collapseWs (s : String) : String := ⟨collapseWsAux false s.data⟩

/-- Collapse each "\r\n" pair to a single "\n" (so that the line splitter
can treat every boundary character uniformly, as str.splitlines counts
"\r\n" once). -/
def normCrlf : List Char → List Char
  | [] => []
  | [c] => [c]
  | c :: d :: rest =>
      if c = '\r' && d = '\n' then '\n' :: normCrlf rest
      else c :: normCrlf (d :: rest)

/-- Python str.splitlines over a CRLF-normalized character list (a trailing
break adds no empty line, the empty string has no lines). -/
def pySplitlinesAux : List Char → List Char → List (List Char)
  | acc, [] => if acc.isEmpty then [] else [acc.reverse]
  | acc, c :: rest =>
      if isLineBreak c then acc.reverse :: pySplitlinesAux [] rest
      else pySplitlinesAux (c :: acc) rest

/-- Python str.splitlines. -/
def pySplitlines (s : String) : List String :=
  (pySplitlinesAux [] (normCrlf s.data)).map fun l => ⟨l⟩

/-- str.join over a list of strings. -/
def joinSep (sep : String) : List String → String
  | [] => ""
  | [s] => s
  | s :: rest => s ++ sep ++ joinSep sep rest

/-- Split a character list on whitespace, dropping empty fragments (how
BeautifulSoup turns a class attribute into a class list). -/
def splitPyWsAux : List Char → List Char → List String
  | acc, [] => if acc.isEmpty then [] else [⟨acc.reverse⟩]
  | acc, c :: rest =>
      if isPySpace c then
        if acc.isEmpty then splitPyWsAux [] rest
        else ⟨acc.reverse⟩ :: splitPyWsAux [] rest
      else splitPyWsAux (c :: acc) rest

/-- Whitespace-split with empty fragments dropped. -/
def splitPyWs (s : String) : List String := splitPyWsAux [] s.data

/-- Value of a decimal digit as Python's int() and regex \d accept it here:
ASCII and full-width digits. -/
def digitVal? (c : Char) : Option Nat :=
  let n := c.toNat
  if 48 ≤ n && n ≤ 57 then some (n - 48)
  else if 65296 ≤ n && n ≤ 65305 then some (n - 65296)
  else none

/-- Digit-run parser for Python int(): digits with single underscores allowed
between digits (no leading/trailing/double underscore). -/
def pyIntGo (acc : Nat) : List Char → Option Nat
  | [] => some acc
  | '_' :: c :: rest =>
      match digitVal? c with
      | some d => pyIntGo (acc * 10 + d) rest
      | none => none
  | ['_'] => none
  | c :: rest =>
      match digitVal? c with
      | some d => pyIntGo (acc * 10 + d) rest
      | none => none

/-- Python int(s) for a string: strip whitespace, optional sign, digit run
with underscores between digits; failure is None (int() raising ValueError,
caught by the caller's try/except). -/
def pyInt (s : String) : Option Int :=
  let t := pyStripL s.data
  match t with
  | '+' :: c :: rest =>
      (match digitVal? c with
       | some d => (pyIntGo d rest).map Int.ofNat
       | none => none)
  | '-' :: c :: rest =>
      (match digitVal? c with
       | some d => (pyIntGo d rest).map fun n => -(n : Int)
       | none => none)
  | c :: rest =>
      (match digitVal? c with
       | some d => (pyIntGo d rest).map Int.ofNat
       | none => none)
  | [] => none

/-- Hexadecimal digit value. -/
def hexVal? (c : Char) : Option Nat :=
  let n := c.toNat
  if 48 ≤ n && n ≤ 57 then some (n - 48)
  else if 97 ≤ n && n ≤ 102 then some (n - 87)
  else if 65 ≤ n && n ≤ 70 then some (n - 55)
  else none

/-! ## Document model

A parsed markup tree as produced by BeautifulSoup(html, "html.parser"):
a node is either a NavigableString or a Tag with a name, attributes and
children.  The whole document is a tag named "[document]" (the soup object). -/

inductive Node where
  | text (s : String) : Node
  | tag (name : String) (attrs : List (String × String)) (children : List Node) : Node
deriving Repr

mutual
/-- Pre-order (document-order) listing of all elements of a subtree, the
subtree root included — the order of BeautifulSoup's next_element chain. -/
def preorder : Node → List Node
  | .text s => [.text s]
  | .tag n a cs => .tag n a cs :: preorderList cs
/-- Pre-order listing of a forest. -/
def preorderList : List Node → List Node
  | [] => []
  | c :: cs => preorder c ++ preorderList cs
end

/-- Attribute lookup (Tag.get). -/
def getAttr? (n : Node) (k : String) : Option String :=
  match n with
  | .text _ => none
  | .tag _ attrs _ => (attrs.find? fun p => p.1 == k).map fun p => p.2

/-- Children of a node. -/
def childrenOf : Node → List Node
  | .text _ => []
  | .tag _ _ cs => cs

/-- Strict descendants in document order (what CSS selection and find_all
search, the node itself excluded). -/
def strictDescendants (n : Node) : List Node := preorderList (childrenOf n)

/-- Is the node a Tag with the given name? -/
def isTagNamed (nm : String) : Node → Bool
  | .tag n _ _ => n == nm
  | .text _ => false

/-- Is the node a Tag with a name in the given list? -/
def isTagIn (nms : List String) : Node → Bool
  | .tag n _ _ => nms.contains n
  | .text _ => false

/-- Is the node a Tag at all (the find_all_previous(True) filter)? -/
def isTagAny : Node → Bool
  | .tag _ _ _ => true
  | .text _ => false

/-- The class list of a tag: BeautifulSoup splits the class attribute on
whitespace (Tag.get("class", [])). -/
def classesOf (n : Node) : List String := splitPyWs ((getAttr? n "class").getD "")

/-- CSS attribute-contains test `[k*="sub"]` and the `in` test on Tag.get. -/
def attrContains (n : Node) (k sub : String) : Bool :=
  match getAttr? n k with
  | some v => strContains v sub
  | none => false

mutual
/-- All NavigableStrings of a subtree in document order (Tag.strings). -/
def nodeStrings : Node → List String
  | .text s => [s]
  | .tag _ _ cs => nodeStringsList cs
/-- All NavigableStrings of a forest in document order. -/
def nodeStringsList : List Node → List String
  | [] => []
  | c :: cs => nodeStrings c ++ nodeStringsList cs
end

/-- Tag.get_text(sep, strip=True): each descendant string stripped, empty
results dropped, the rest joined with the separator. -/
def getTextSep (sep : String) (n : Node) : String :=
  joinSep sep (((nodeStrings n).map pyStrip).filter fun s => s ≠ "")

/-- Tag.get_text(strip=True) (empty separator). -/
def getTextStrip (n : Node) : String := getTextSep "" n

/-! ## URL handling (urllib.parse collaborators of parse_novelid) -/

/-- A token of percent-decoding: a plain character or a decoded %XX byte. -/
inductive PctTok where
  | chr (c : Char)
  | byt (b : Nat)
deriving DecidableEq, Repr

/-- First phase of urllib.parse.unquote_plus: '+' becomes a space, a %XX
group with two hex digits becomes a byte token, anything else stays a
character ('%' not followed by two hex digits is kept literally). -/
def pctToks : List Char → List PctTok
  | [] => []
  | '+' :: rest => .chr ' ' :: pctToks rest
  | '%' :: h1 :: h2 :: rest =>
      (match hexVal? h1, hexVal? h2 with
       | some a, some b => .byt (16 * a + b) :: pctToks rest
       | _, _ => .chr '%' :: pctToks (h1 :: h2 :: rest))
  | c :: rest => .chr c :: pctToks rest

/-- Second phase: UTF-8 decoding of the byte tokens (Python bytes.decode
with errors="replace"; an invalid lead or continuation byte yields U+FFFD
for the lead and decoding resumes at the next token). -/
def utf8Toks : List PctTok → List Char
  | [] => []
  | .chr c :: rest => c :: utf8Toks rest
  | .byt b :: rest =>
      if b < 0x80 then Char.ofNat b :: utf8Toks rest
      else if 0xC2 ≤ b && b ≤ 0xDF then
        match rest with
        | .byt c1 :: rest2 =>
            if 0x80 ≤ c1 && c1 ≤ 0xBF then
              Char.ofNat ((b - 0xC0) * 64 + (c1 - 0x80)) :: utf8Toks rest2
            else '\uFFFD' :: utf8Toks (.byt c1 :: rest2)
        | .chr c :: rest2 => '\uFFFD' :: utf8Toks (.chr c :: rest2)
        | [] => ['\uFFFD']
      else if 0xE0 ≤ b && b ≤ 0xEF then
        match rest with
        | .byt c1 :: .byt c2 :: rest2 =>
            if (((if b = 0xE0 then 0xA0 else 0x80) ≤ c1 &&
                 c1 ≤ (if b = 0xED then 0x9F else 0xBF)) &&
                (0x80 ≤ c2 && c2 ≤ 0xBF)) then
              Char.ofNat ((b - 0xE0) * 4096 + (c1 - 0x80) * 64 + (c2 - 0x80)) :: utf8Toks rest2
            else '\uFFFD' :: utf8Toks (.byt c1 :: .byt c2 :: rest2)
        | .byt c1 :: .chr c :: rest2 => '\uFFFD' :: utf8Toks (.byt c1 :: .chr c :: rest2)
        | .byt c1 :: [] => '\uFFFD' :: utf8Toks [.byt c1]
        | .chr c :: rest2 => '\uFFFD' :: utf8Toks (.chr c :: rest2)
        | [] => ['\uFFFD']
      else if 0xF0 ≤ b && b ≤ 0xF4 then
        match rest with
        | .byt c1 :: .byt c2 :: .byt c3 :: rest2 =>
            if ((((if b = 0xF0 then 0x90 else 0x80) ≤ c1 &&
                  c1 ≤ (if b = 0xF4 then 0x8F else 0xBF)) &&
                 (0x80 ≤ c2 && c2 ≤ 0xBF)) && (0x80 ≤ c3 && c3 ≤ 0xBF)) then
              Char.ofNat ((b - 0xF0) * 262144 + (c1 - 0x80) * 4096 +
                (c2 - 0x80) * 64 + (c3 - 0x80)) :: utf8Toks rest2
            else '\uFFFD' :: utf8Toks (.byt c1 :: .byt c2 :: .byt c3 :: rest2)
        | .byt c1 :: .byt c2 :: .chr c :: rest2 =>
            '\uFFFD' :: utf8Toks (.byt c1 :: .byt c2 :: .chr c :: rest2)
        | .byt c1 :: .byt c2 :: [] => '\uFFFD' :: utf8Toks [.byt c1, .byt c2]
        | .byt c1 :: .chr c :: rest2 => '\uFFFD' :: utf8Toks (.byt c1 :: .chr c :: rest2)
        | .byt c1 :: [] => '\uFFFD' :: utf8Toks [.byt c1]
        | .chr c :: rest2 => '\uFFFD' :: utf8Toks (.chr c :: rest2)
        | [] => ['\uFFFD']
      else '\uFFFD' :: utf8Toks rest

/-- urllib.parse.unquote_plus. -/
def unquotePlus (s : String) : String := ⟨utf8Toks (pctToks s.data)⟩

/-- Characters before the first occurrence of `sep`. -/
def takeUntilChar (sep : Char) : List Char → List Char
  | [] => []
  | c :: rest => if c = sep then [] else c :: takeUntilChar sep rest

/-- Characters after the first occurrence of `sep`, if any. -/
def afterChar? (sep : Char) : List Char → Option (List Char)
  | [] => none
  | c :: rest => if c = sep then some rest else afterChar? sep rest

/-- str.split(sep): all fragments, empty ones included. -/
def splitOnChar (sep : Char) : List Char → List (List Char)
  | [] => [[]]
  | c :: rest =>
      if c = sep then [] :: splitOnChar sep rest
      else
        match splitOnChar sep rest with
        | f :: fs => (c :: f) :: fs
        | [] => [[c]]

/-- The query component as urlparse extracts it: the fragment (after the
first '#') is cut off first, then the query is everything after the first
'?' of what remains. -/
def urlQuery (href : String) : String :=
  match afterChar? '?' (takeUntilChar '#' href.data) with
  | some q => ⟨q⟩
  | none => ""

/-- One field of parse_qsl (keep_blank_values=False, strict_parsing=False):
skipped when empty, without '=', or with an empty value; otherwise the
unquoted (name, value) pair. -/
def qsField? (f : List Char) : Option (String × String) :=
  if f.isEmpty then none
  else
    match afterChar? '=' f with
    | none => none
    | some v =>
        if v.isEmpty then none
        else some (unquotePlus ⟨takeUntilChar '=' f⟩, unquotePlus ⟨v⟩)

/-- First value listed under `key` by parse_qs(query) (qs[key][0]); none when
the key is absent. -/
def parseQsFirst (query key : String) : Option String :=
  ((splitOnChar '&' query.data).filterMap qsField?).find? (fun p => p.1 == key)
    |>.map fun p => p.2

/-- Leading run of regex-\d digits. -/
def digitsRun (l : List Char) : List Char := l.takeWhile fun c => (digitVal? c).isSome

/-- Numeric value of a digit run. -/
def natOfDigits (l : List Char) : Nat := l.foldl (fun acc c => acc * 10 + ((digitVal? c).getD 0)) 0

/-- re.search(r"novelid=(\d+)", href): earliest position where the literal
"novelid=" is followed by at least one digit; the captured digit run. -/
def reNovelidAux : List Char → Option Int
  | [] => none
  | c :: rest =>
      if leadMatch (c :: rest) "novelid=".data then
        let ds := digitsRun ((c :: rest).drop 8)
        if ds.isEmpty then reNovelidAux rest
        else some (Int.ofNat (natOfDigits ds))
      else reNovelidAux rest

/-- parse_novelid: read the novelid query parameter (urlparse + parse_qs +
int, any failure caught), falling back to a direct regex search on the raw
href. -/
def parse_novelid (href : String) : Option Int :=
  match parseQsFirst (urlQuery href) "novelid" with
  | some v =>
      (match pyInt v with
       | some n => some n
       | none => reNovelidAux href.data)
  | none => reNovelidAux href.data

/-! ## parse_topten -/

/-- A row of the ranked list (dataclass ToptenItem). -/
structure ToptenItem where
  novelid : Int
  title : String
  author : Option String
  channel : String
  detail_url : String
deriving DecidableEq, Repr

/-- The channel map: a Python dict in insertion order, each key bound to the
ordered list of its items. -/
abbrev ChannelMap := List (String × List ToptenItem)

/-- ASCII lowercasing (str.lower on the attribute hints used here). -/
def strLower (s : String) : String := ⟨s.data.map Char.toLower⟩

/-- The channel keyword vocabulary of parse_topten. -/
def KEYWORDS : List String :=
  ["言情", "纯爱", "百合", "无CP", "衍生", "二次元", "轻小说", "影视", "综漫",
   "古代", "现代", "幻想", "悬疑", "科幻", "游戏"]

/-- clean_channel: strip, drop half- and full-width colons (str.replace), drop
all remaining whitespace (re.sub(r"\s+", "")), defaulting to "未分类" when
nothing is left. -/
def clean_channel (text : String) : String :=
  let t1 := pyStrip text
  let t2 : String := ⟨t1.data.filter fun c => !(c = '：' || c = ':')⟩
  let t3 : String := ⟨t2.data.filter fun c => !isPySpace c⟩
  if t3 = "" then "未分类" else t3

/-- looks_like_channel: the cleaned text is non-empty, short (2 to 20 chars)
and mentions one of the domain keywords. -/
def looks_like_channel (text : String) : Bool :=
  let t := clean_channel text
  if t = "" then false
  else (2 ≤ t.length && t.length ≤ 20) && KEYWORDS.any fun k => strContains t k

/-- Does a tag's class or id attribute hint at a title/channel/category
container? -/
def attrHint (p : Node) : Bool :=
  let cls := strLower (joinSep " " (classesOf p))
  let pid := strLower ((getAttr? p "id").getD "")
  strContains cls "title" || strContains cls "channel" || strContains cls "category" ||
  strContains pid "title" || strContains pid "channel" || strContains pid "category"

/-- find_channel_for_ul over the ul's previous elements (closest first, the
find_all_previous order): heading tier (limit 30), attribute-hint tier
(limit 60), any-tag tier (limit 80), else "未分类". -/
def find_channel_for_ul (prevRev : List Node) : String :=
  match ((prevRev.filter (isTagIn ["h1", "h2", "h3", "h4", "h5", "h6"])).take 30).find?
      (fun p => looks_like_channel (getTextStrip p)) with
  | some p => clean_channel (getTextStrip p)
  | none =>
    match ((prevRev.filter (isTagIn ["div", "span", "td", "th"])).take 60).find?
        (fun p => attrHint p && looks_like_channel (getTextStrip p)) with
    | some p => clean_channel (getTextStrip p)
    | none =>
      match ((prevRev.filter isTagAny).take 80).find?
          (fun p => looks_like_channel (getTextStrip p)) with
      | some p => clean_channel (getTextStrip p)
      | none => "未分类"

/-- Is the node a `ul.list_01` container? -/
def isListUl (n : Node) : Bool := isTagNamed "ul" n && (classesOf n).contains "list_01"

/-- Walk the whole-document pre-order, pairing every selected `ul.list_01`
with the list of elements preceding it, closest first (its
find_all_previous chain). -/
def ulsWithPrevAux : List Node → List Node → List (Node × List Node)
  | [], _ => []
  | n :: rest, prevRev =>
      (if isListUl n then [(n, prevRev)] else []) ++ ulsWithPrevAux rest (n :: prevRev)

/-- soup.select("ul.list_01"), each hit paired with its previous elements.
The soup object itself is not linked into BeautifulSoup's element chains
(the first parsed element's previous_element is None), so the walk covers
only the root's descendants and the [document] root never appears in a
find_all_previous chain. -/
def ulsWithPrev (doc : Node) : List (Node × List Node) :=
  ulsWithPrevAux (preorderList (childrenOf doc)) []

/-- The entries of one container: direct li children, or every descendant li
when there are none (ul.find_all("li", recursive=False) or
ul.find_all("li")). -/
def ulEntries (ul : Node) : List Node :=
  let direct := (childrenOf ul).filter (isTagNamed "li")
  if direct.isEmpty then (strictDescendants ul).filter (isTagNamed "li") else direct

/-- The item-detail link selector a[href*="onebook.php"][href*="novelid="]. -/
def isNovelA (n : Node) : Bool :=
  isTagNamed "a" n && attrContains n "href" "onebook.php" && attrContains n "href" "novelid="

/-- li.select_one of the item-detail link. -/
def liNovelA (li : Node) : Option Node := (strictDescendants li).find? isNovelA

/-- Title fallback chain: link text, else title attribute, else alt attribute,
else empty (Python `or` chain over falsy values). -/
def liTitle (a : Node) : String :=
  let t1 := getTextStrip a
  if t1 ≠ "" then t1
  else
    let t2 := (getAttr? a "title").getD ""
    if t2 ≠ "" then t2 else (getAttr? a "alt").getD ""

/-- li.select_one("span.author"). -/
def authorSpan (li : Node) : Option Node :=
  (strictDescendants li).find? fun n => isTagNamed "span" n && (classesOf n).contains "author"

/-- li.select_one of the author link a[href*="oneauthor.php"][href*="authorid="]. -/
def authorA (li : Node) : Option Node :=
  (strictDescendants li).find? fun n =>
    isTagNamed "a" n && attrContains n "href" "oneauthor.php" && attrContains n "href" "authorid="

/-- Author fallback chain: text of span.author if non-empty, else text of the
author link if present; a present span with empty text and no author link
leaves the empty string, and no span or link at all leaves None. -/
def liAuthor (li : Node) : Option String :=
  match authorSpan li with
  | some sp =>
      let t := getTextStrip sp
      if t ≠ "" then some t
      else
        (match authorA li with
         | some a2 => some (getTextStrip a2)
         | none => some t)
  | none =>
      (match authorA li with
       | some a2 => some (getTextStrip a2)
       | none => none)

/-- urljoin(BASE_URL, f"onebook.php?novelid={novelid}") for the constant
BASE_URL "https://www.jjwxc.net/". -/
def detailUrl (novelid : Int) : String :=
  "https://www.jjwxc.net/onebook.php?novelid=" ++ toString novelid

/-- channel_book_map.setdefault(channel, []).append(item): append to the
first bucket with this key, or add a new bucket at the end. -/
def mapAppend (m : ChannelMap) (ch : String) (it : ToptenItem) : ChannelMap :=
  match m with
  | [] => [(ch, [it])]
  | (c, its) :: rest =>
      if c = ch then (c, its ++ [it]) :: rest else (c, its) :: mapAppend rest ch it

/-- One li of the container loop: resolve the detail link, parse the id, skip
falsy (0) or already-seen ids, record the id as seen, then drop the entry if
no title resolves, else append the item to the channel bucket. -/
def processLi (ch : String) (st : List Int × ChannelMap) (li : Node) : List Int × ChannelMap :=
  match liNovelA li with
  | none => st
  | some a =>
    let href := (getAttr? a "href").getD ""
    match parse_novelid href with
    | none => st
    | some novelid =>
      if novelid = 0 || st.1.contains novelid then st
      else
        let seen := novelid :: st.1
        let title := liTitle a
        if title = "" then (seen, st.2)
        else
          (seen, mapAppend st.2 ch
            { novelid := novelid, title := title, author := liAuthor li,
              channel := ch, detail_url := detailUrl novelid })

/-- One ul of the container loop: infer the channel, then process its entries. -/
def processUl (st : List Int × ChannelMap) (up : Node × List Node) : List Int × ChannelMap :=
  (ulEntries up.1).foldl (processLi (find_channel_for_ul up.2)) st

/-- The container phase of parse_topten: all ul.list_01 containers in document
order, threading the seen set and the channel map. -/
def containerPhase (doc : Node) : List Int × ChannelMap :=
  (ulsWithPrev doc).foldl processUl ([], [])

/-- All item-detail links of the whole document (the fallback scan's
soup.select). -/
def novelAnchors (doc : Node) : List Node := (preorder doc).filter isNovelA

/-- One anchor of the fallback loop: parse the id, skip falsy or seen ids,
drop the entry when the link text is empty, else record the id and append the
item to the "未分类" bucket with no author. -/
def fbStep (st : List Int × ChannelMap) (a : Node) : List Int × ChannelMap :=
  let href := (getAttr? a "href").getD ""
  match parse_novelid href with
  | none => st
  | some novelid =>
    if novelid = 0 || st.1.contains novelid then st
    else
      let title := getTextStrip a
      if title = "" then st
      else
        (novelid :: st.1, mapAppend st.2 "未分类"
          { novelid := novelid, title := title, author := none,
            channel := "未分类", detail_url := detailUrl novelid })

/-- parse_topten: the container phase, and — exactly when it produced an empty
channel map — the whole-document fallback scan, run with the seen set the
container phase left behind. -/
def parse_topten (doc : Node) : ChannelMap :=
  let st := containerPhase doc
  if st.2.isEmpty then ((novelAnchors doc).foldl fbStep st).2 else st.2

/-! ### Candidate view of the container phase (for the dedup theorems) -/

/-- What one li contributes before the seen-set check: its channel, parsed id,
resolved title and author. -/
structure Cand where
  channel : String
  nid : Int
  title : String
  author : Option String
deriving DecidableEq, Repr

/-- The item a candidate builds. -/
def candItem (c : Cand) : ToptenItem :=
  { novelid := c.nid, title := c.title, author := c.author,
    channel := c.channel, detail_url := detailUrl c.nid }

/-- The seen-set step of the container loop, on a candidate. -/
def candStep (st : List Int × ChannelMap) (oc : Option Cand) : List Int × ChannelMap :=
  match oc with
  | none => st
  | some c =>
      if c.nid = 0 || st.1.contains c.nid then st
      else
        let seen := c.nid :: st.1
        if c.title = "" then (seen, st.2) else (seen, mapAppend st.2 c.channel (candItem c))

/-- The candidate of one li (None when it has no resolvable detail link). -/
def liCand (ch : String) (li : Node) : Option Cand :=
  match liNovelA li with
  | none => none
  | some a =>
      match parse_novelid ((getAttr? a "href").getD "") with
      | none => none
      | some v => some ⟨ch, v, liTitle a, liAuthor li⟩

/-- All candidates of the document's containers, in document order. -/
def allCands (doc : Node) : List (Option Cand) :=
  (ulsWithPrev doc).flatMap fun up =>
    (ulEntries up.1).map (liCand (find_channel_for_ul up.2))

/-- The channel map the whole-document fallback scan alone would build. -/
def fallbackMap (doc : Node) : ChannelMap :=
  ((novelAnchors doc).foldl fbStep ([], [])).2

/-- All items of a channel map, in bucket order. -/
def allItems (m : ChannelMap) : List ToptenItem := m.flatMap fun p => p.2

/-- All item ids of a channel map. -/
def allIds (m : ChannelMap) : List Int := (allItems m).map fun it => it.novelid

/-- The items of a channel map carrying a given id. -/
def itemsOfId (m : ChannelMap) (v : Int) : List ToptenItem :=
  (allItems m).filter fun it => it.novelid = v

/-- The first candidate carrying a given id, in document order. -/
def firstCandWithId (cands : List (Option Cand)) (v : Int) : Option Cand :=
  cands.findSome? fun oc =>
    match oc with
    | some c => if c.nid = v then some c else none
    | none => none

/-! ## Label-value extraction (_extract_value_by_label and friends) -/

/-- The context the structured tier needs about the parent of the first text
node containing the label: the parent's tag name, its following siblings in
order (the find_next_sibling chain), and the flat document-order list of its
next elements (the find_next chain, starting with its first child). -/
structure LabelCtx where
  pName : String
  pSibs : List Node
  pNext : List Node

mutual
/-- Scan a subtree for the first text node (in document order) whose content
contains the label — soup.find(string=re.compile(re.escape(label))) together
with the parent context the structured tier consults: `pName`, `pSibs`,
`pNext` describe the parent of the text nodes currently scanned, `afterT`
is the flat element list after that parent's subtree, and `sibsAfter` the
siblings after the visited node. -/
def findStrInNode (label pName : String) (pSibs pNext afterT sibsAfter : List Node) :
    Node → Option LabelCtx
  | .text s => if strContains s label then some ⟨pName, pSibs, pNext⟩ else none
  | .tag n _ cs =>
      findStrInList label n sibsAfter (preorderList cs ++ (preorderList sibsAfter ++ afterT))
        (preorderList sibsAfter ++ afterT) cs
termination_by structural n => n
/-- Scan a forest of children (whose parent data is given) left to right. -/
def findStrInList (label pName : String) (pSibs pNext afterT : List Node) :
    List Node → Option LabelCtx
  | [] => none
  | c :: rest =>
      match findStrInNode label pName pSibs pNext afterT rest c with
      | some ctx => some ctx
      | none => findStrInList label pName pSibs pNext afterT rest
termination_by structural l => l
end

/-- The parent context of the first label-bearing text node of the document.
The document root is the soup tag "[document]", and the soup object is not
linked into BeautifulSoup's next_element chain (soup.next_element is None):
a text node parented by the root has no siblings and an empty find_next
chain, so the root level passes empty pSibs and pNext. -/
def findLabelCtx (doc : Node) (label : String) : Option LabelCtx :=
  match doc with
  | .text _ => none
  | .tag n _ cs => findStrInList label n [] [] [] cs

/-- "" becomes None (`return val or None`). -/
def emptyToNone (s : String) : Option String := if s = "" then none else some s

/-- parent.find_next_sibling("td"): the first following sibling tag named td. -/
def findNextSibTd (sibs : List Node) : Option Node := sibs.find? (isTagNamed "td")

/-- parent.find_next(["td", "span", "div"]): the first next element that is a
tag with one of these names. -/
def findNextTSD (nexts : List Node) : Option Node := nexts.find? (isTagIn ["td", "span", "div"])

/-- The structured tier of _extract_value_by_label.  `some r` means the tier
returned `r` from the function (note `r` may be None: an empty value cell
returns None without consulting the textual tier); `none` means control fell
through to the textual tier. -/
def structuredStep (doc : Node) (label : String) : Option (Option String) :=
  match findLabelCtx doc label with
  | none => none
  | some ctx =>
      let tdBranch : Option (Option String) :=
        if ctx.pName = "td" || ctx.pName = "th" then
          match findNextSibTd ctx.pSibs with
          | some sib => some (emptyToNone (getTextSep " " sib))
          | none => none
        else none
      match tdBranch with
      | some r => some r
      | none =>
          match findNextTSD ctx.pNext with
          | some nxt =>
              let txt := getTextSep " " nxt
              if txt ≠ "" && !strContains txt label then some (some txt) else none
          | none => none

/-- One match attempt of re.search(re.escape(label) + r"\s*[:：]\s*(.+)$", line)
at a fixed start position: the label literal, optional whitespace, a colon,
then (after the greedy-with-backtracking whitespace) at least one character.
The returned value is everything after the colon; the caller strips it, which
makes the backtracking irrelevant. -/
def matchLabelAt (label l : List Char) : Option (List Char) :=
  if leadMatch l label then
    match (l.drop label.length).dropWhile isPySpace with
    | c :: r2 => if (c = ':' || c = '：') && !r2.isEmpty then some r2 else none
    | [] => none
  else none

/-- re.search of the label-colon pattern: earliest start position at which the
whole pattern matches. -/
def searchLCAux (label : List Char) : List Char → Option (List Char)
  | [] => none
  | c :: rest =>
      match matchLabelAt label (c :: rest) with
      | some r => some r
      | none => searchLCAux label rest

/-- The raw text after the matched colon, if the pattern matches anywhere in
the line. -/
def searchLabelColon (label line : String) : Option String :=
  (searchLCAux label.data line.data).map fun l => ⟨l⟩

/-- The textual tier's verdict on one line: `none` when the loop just moves
on (no label, or label present but the pattern fails); `some out` when the
line makes the function return `out` (the stripped capture, or None when that
strip leaves nothing). -/
def lineVerdict (label line : String) : Option (Option String) :=
  if strContains line label then
    match searchLabelColon label line with
    | some rest => some (emptyToNone (pyStrip rest))
    | none => none
  else none

/-- The textual tier of _extract_value_by_label: flatten the document with
get_text("\n", strip=True), split into lines, return the first line verdict
(None when no line concludes). -/
def textualTier (doc : Node) (label : String) : Option String :=
  ((pySplitlines (getTextSep "\n" doc)).findSome? (lineVerdict label)).getD none

/-- _extract_value_by_label: the structured tier's early returns, else the
textual line-matching tier. -/
def extractValueByLabel (doc : Node) (label : String) : Option String :=
  match structuredStep doc label with
  | some r => r
  | none => textualTier doc label

/-- CSS selection for _extract_summary's candidate containers. -/
def summaryCandidate (doc : Node) (p : Node → Bool) : Option Node :=
  (strictDescendants doc).find? p

/-- _extract_summary: the candidate container selectors in order, each
accepted only with non-empty text, else the label fallback "小说简介". -/
def extractSummary (doc : Node) : Option String :=
  let try1 := fun (p : Node → Bool) =>
    match summaryCandidate doc p with
    | some el => emptyToNone (getTextSep "\n" el)
    | none => none
  match try1 (fun n => (getAttr? n "id").getD "" == "novelintro") with
  | some t => some t
  | none =>
  match try1 (fun n => (getAttr? n "id").getD "" == "onebookintro") with
  | some t => some t
  | none =>
  match try1 (fun n => (classesOf n).contains "noveltext") with
  | some t => some t
  | none =>
  match try1 (fun n => (classesOf n).contains "novelintro") with
  | some t => some t
  | none =>
  match try1 (fun n => isTagNamed "div" n && attrContains n "style" "简介") with
  | some t => some t
  | none => extractValueByLabel doc "小说简介"

/-! ## Detail field parsers -/

/-- Is the character in the word-count class [\d,，]? -/
def isWCChar (c : Char) : Bool := (digitVal? c).isSome || c = ',' || c = '，'

/-- re.search(r"([\d,，]+)", s): the first maximal run of digits and commas. -/
def firstWCRun : List Char → Option (List Char)
  | [] => none
  | c :: rest => if isWCChar c then some (c :: rest.takeWhile isWCChar) else firstWCRun rest

/-- _parse_word_count: falsy input is None; else take the first digit/comma
run, drop the commas, and parse with int() (failure caught to None). -/
def parseWordCount (s : Option String) : Option Int :=
  match s with
  | none => none
  | some s =>
      if s = "" then none
      else
        match firstWCRun s.data with
        | none => none
        | some run => pyInt ⟨run.filter fun c => !(c = ',' || c = '，')⟩

/-- The delimiter class of _split_tags:
space, ideographic space, 、，, half comma, ;, /, ；, |, ｜, ·, •. -/
def isTagDelim (c : Char) : Bool :=
  c = ' ' || c = '　' || c = '、' || c = '，' || c = ',' || c = ';' || c = '/' ||
  c = '；' || c = '|' || c = '｜' || c = '·' || c = '•'

/-- re.split on the delimiter class: the fragments between delimiter runs
(boundary empties produced by re.split are dropped by the caller's filter, so
only the non-empty groups are kept here). -/
def tagFragmentsAux : List Char → List Char → List String
  | acc, [] => if acc.isEmpty then [] else [⟨acc.reverse⟩]
  | acc, c :: rest =>
      if isTagDelim c then
        if acc.isEmpty then tagFragmentsAux [] rest
        else ⟨acc.reverse⟩ :: tagFragmentsAux [] rest
      else tagFragmentsAux (c :: acc) rest

/-- The normalization step of _split_tags: NBSP to space, whitespace runs
collapsed (re.sub(r"\s+", " ")), then strip. -/
def tagNormalize (s : String) : String :=
  pyStrip (collapseWs ⟨s.data.map fun c => if c = '\u00a0' then ' ' else c⟩)

/-- The stripped non-empty fragments of the normalized tag string
([p.strip() for p in parts if p and p.strip()]). -/
def tagParts (s : String) : List String :=
  ((tagFragmentsAux [] (tagNormalize s).data).filter fun p => p ≠ "" && pyStrip p ≠ "").map pyStrip

/-- First-seen-order dedup of the tag list. -/
def dedupFS : List String → List String → List String
  | [], _ => []
  | t :: rest, seen =>
      if seen.contains t then dedupFS rest seen else t :: dedupFS rest (t :: seen)

/-- _split_tags: falsy input is None; normalize, split on the delimiter
class, drop empty fragments, dedup keeping first-seen order; an empty result
is None, never an empty list. -/
def splitTags (s : Option String) : Option (List String) :=
  match s with
  | none => none
  | some s =>
      if s = "" then none
      else
        let uniq := dedupFS (tagParts s) []
        if uniq.isEmpty then none else some uniq

/-! ## parse_detail and build_dataset -/

/-- dataclass NovelDetail; every field defaults to None. -/
structure NovelDetail where
  article_type : Option String := none
  viewpoint : Option String := none
  word_count : Option Int := none
  summary : Option String := none
  tags : Option (List String) := none
  one_sentence : Option String := none
  raw : Option (List (String × String)) := none
deriving DecidableEq, Repr

/-- parse_detail over a parsed detail document. -/
def parse_detail (doc : Node) : NovelDetail :=
  let article_type := extractValueByLabel doc "文章类型"
  let viewpoint := extractValueByLabel doc "作品视角"
  let word_count_raw := extractValueByLabel doc "全文字数"
  let tags_raw := extractValueByLabel doc "内容标签"
  let one_sentence := extractValueByLabel doc "一句话简介"
  let summary := extractSummary doc
  { article_type := article_type,
    viewpoint := viewpoint,
    word_count := parseWordCount word_count_raw,
    summary := summary,
    tags := splitTags tags_raw,
    one_sentence := one_sentence,
    raw := some [("全文字数_raw", word_count_raw.getD ""), ("内容标签_raw", tags_raw.getD "")] }

/-- One output row of build_dataset: the listing fields plus the detail
record. -/
structure EnrichedItem where
  novelid : Int
  title : String
  author : Option String
  channel : String
  detail_url : String
  detail : NovelDetail
deriving DecidableEq, Repr

/-- The per-item body of build_dataset's inner loop: fetch and parse the
item's detail page; any failure of that fetch/parse pair is caught at the
item boundary and replaced by the all-absent NovelDetail(). -/
def enrichBook (fetch : String → Except Unit Node) (b : ToptenItem) : EnrichedItem :=
  { novelid := b.novelid, title := b.title, author := b.author,
    channel := b.channel, detail_url := b.detail_url,
    detail :=
      match fetch b.detail_url with
      | .ok d => parse_detail d
      | .error _ => {} }

/-- build_dataset's inner loop over one channel's books, in order. -/
def enrichList (fetch : String → Except Unit Node) : List ToptenItem → List EnrichedItem
  | [] => []
  | b :: rest => enrichBook fetch b :: enrichList fetch rest

/-- build_dataset's outer loop over the channel map (prints, pacing sleeps
and the timestamped source block are I/O of the orchestration layer and
carry no data dependency; the channels assembly is embedded). -/
def buildChannels (fetch : String → Except Unit Node) : ChannelMap →
    List (String × List EnrichedItem)
  | [] => []
  | (c, bs) :: rest => (c, enrichList fetch bs) :: buildChannels fetch rest

/-- build_dataset: parse the listing, then enrich every channel's items in
processing order. -/
def build_dataset (fetch : String → Except Unit Node) (listing : Node) :
    List (String × List EnrichedItem) :=
  buildChannels fetch (parse_topten listing)

/-! ## Concrete documents for witnesses and counterexamples -/

/-- The empty listing document (a soup with no elements). -/
def docEmpty : Node := .tag "[document]" [] []

/-- A listing document whose ranked list repeats novelid 5: the first entry's
link has no text, title or alt, the second carries a title. -/
def docDup : Node :=
  .tag "[document]" []
    [.tag "h2" [] [.text "言情金榜"],
     .tag "ul" [("class", "list_01")]
       [.tag "li" [] [.tag "a" [("href", "onebook.php?novelid=5")] []],
        .tag "li" [] [.tag "a" [("href", "onebook.php?novelid=5")] [.text "甲书"]]]]

/-- A listing document with no ul.list_01 container but one detail link. -/
def docFlat : Node :=
  .tag "[document]" []
    [.tag "a" [("href", "onebook.php?novelid=3")] [.text "乙书"]]

/-- A one-item listing document (one container, one entry, novelid 5). -/
def docOne : Node :=
  .tag "[document]" []
    [.tag "ul" [("class", "list_01")]
       [.tag "li" [] [.tag "a" [("href", "onebook.php?novelid=5")] [.text "丙书"]]]]

/-- A detail document holding a label/value pair as adjacent table cells. -/
def tdDoc (label value : String) : Node :=
  .tag "[document]" []
    [.tag "table" []
       [.tag "tr" [] [.tag "td" [] [.text label], .tag "td" [] [.text value]]]]

/-- A detail document holding the same pair only as one text line with a
full-width colon. -/
def lineDoc (label value : String) : Node :=
  .tag "[document]" [] [.text (label ++ "：" ++ value)]

/-! ## Lemmas: the candidate view of the container phase -/

theorem processLi_eq_candStep (ch : String) (st : List Int × ChannelMap) (li : Node) :
    processLi ch st li = candStep st (liCand ch li) := by
  unfold processLi liCand candStep
  cases h1 : liNovelA li with
  | none => rfl
  | some a =>
    dsimp only
    cases h2 : parse_novelid ((getAttr? a "href").getD "") with
    | none => rfl
    | some v => rfl

theorem foldl_processLi_eq (ch : String) (lis : List Node) :
    ∀ st : List Int × ChannelMap,
      lis.foldl (processLi ch) st = (lis.map (liCand ch)).foldl candStep st := by
  induction lis with
  | nil => intro st; rfl
  | cons li rest ih =>
    intro st
    simp only [List.foldl_cons, List.map_cons, processLi_eq_candStep]
    exact ih _

theorem foldl_processUl_eq (ups : List (Node × List Node)) :
    ∀ st : List Int × ChannelMap,
      ups.foldl processUl st =
        (ups.flatMap fun up => (ulEntries up.1).map (liCand (find_channel_for_ul up.2))).foldl
          candStep st := by
  induction ups with
  | nil => intro st; rfl
  | cons up rest ih =>
    intro st
    simp only [List.foldl_cons, List.flatMap_cons, List.foldl_append]
    rw [processUl, foldl_processLi_eq]
    exact ih _

theorem containerPhase_eq (doc : Node) :
    containerPhase doc = (allCands doc).foldl candStep ([], []) := by
  unfold containerPhase allCands
  exact foldl_processUl_eq _ _

/-! ## Lemmas: mapAppend and itemsOfId -/

theorem allItems_nil : allItems [] = [] := rfl

theorem allItems_cons (c : String) (its : List ToptenItem) (rest : ChannelMap) :
    allItems ((c, its) :: rest) = its ++ allItems rest := by
  simp [allItems]

theorem allItems_mapAppend (m : ChannelMap) (ch : String) (it : ToptenItem) :
    ∃ l1 l2, allItems m = l1 ++ l2 ∧ allItems (mapAppend m ch it) = l1 ++ it :: l2 := by
  induction m with
  | nil => exact ⟨[], [], rfl, rfl⟩
  | cons p rest ih =>
    obtain ⟨c, its⟩ := p
    by_cases h : c = ch
    · refine ⟨its, allItems rest, allItems_cons c its rest, ?_⟩
      rw [mapAppend, if_pos h, allItems_cons]
      simp
    · obtain ⟨l1, l2, h1, h2⟩ := ih
      refine ⟨its ++ l1, l2, ?_, ?_⟩
      · rw [allItems_cons, h1, List.append_assoc]
      · rw [mapAppend, if_neg h, allItems_cons, h2]
        simp

theorem itemsOfId_mapAppend_ne (m : ChannelMap) (ch : String) (it : ToptenItem) (v : Int)
    (h : it.novelid ≠ v) : itemsOfId (mapAppend m ch it) v = itemsOfId m v := by
  obtain ⟨l1, l2, h1, h2⟩ := allItems_mapAppend m ch it
  simp [itemsOfId, h1, h2, List.filter_append, List.filter_cons, h]

theorem itemsOfId_mapAppend_eq (m : ChannelMap) (ch : String) (it : ToptenItem) (v : Int)
    (hid : it.novelid = v) (h : itemsOfId m v = []) :
    itemsOfId (mapAppend m ch it) v = [it] := by
  obtain ⟨l1, l2, h1, h2⟩ := allItems_mapAppend m ch it
  have h' := h
  simp only [itemsOfId, h1, List.filter_append] at h'
  obtain ⟨he1, he2⟩ := List.append_eq_nil.mp h'
  simp only [itemsOfId, h2, List.filter_append, List.filter_cons, he1, he2, hid]
  simp

theorem allIds_mapAppend_perm (m : ChannelMap) (ch : String) (it : ToptenItem) :
    (allIds (mapAppend m ch it)).Perm (it.novelid :: allIds m) := by
  obtain ⟨l1, l2, h1, h2⟩ := allItems_mapAppend m ch it
  simp only [allIds, h1, h2, List.map_append, List.map_cons]
  exact List.perm_middle.trans (by simp)

theorem mem_allIds_mapAppend (m : ChannelMap) (ch : String) (it : ToptenItem) (i : Int) :
    i ∈ allIds (mapAppend m ch it) ↔ i = it.novelid ∨ i ∈ allIds m := by
  rw [(allIds_mapAppend_perm m ch it).mem_iff]
  simp

/-! ## Lemmas: the candStep fold -/

theorem candStep_none (st : List Int × ChannelMap) : candStep st none = st := rfl

theorem candStep_skip (st : List Int × ChannelMap) (c : Cand)
    (h : c.nid = 0 ∨ c.nid ∈ st.1) : candStep st (some c) = st := by
  simp only [candStep]
  rw [if_pos]
  simpa [List.elem_iff] using h

theorem candStep_drop (st : List Int × ChannelMap) (c : Cand)
    (h0 : c.nid ≠ 0) (hm : c.nid ∉ st.1) (ht : c.title = "") :
    candStep st (some c) = (c.nid :: st.1, st.2) := by
  simp only [candStep]
  rw [if_neg (by simp [h0, List.elem_iff, hm])]
  simp [ht]

theorem candStep_add (st : List Int × ChannelMap) (c : Cand)
    (h0 : c.nid ≠ 0) (hm : c.nid ∉ st.1) (ht : c.title ≠ "") :
    candStep st (some c) = (c.nid :: st.1, mapAppend st.2 c.channel (candItem c)) := by
  simp only [candStep]
  rw [if_neg (by simp [h0, List.elem_iff, hm])]
  simp [ht]

theorem candStep_seen_sub (st : List Int × ChannelMap) (oc : Option Cand) :
    st.1 ⊆ (candStep st oc).1 := by
  cases oc with
  | none => exact fun _ h => h
  | some c =>
    by_cases h : c.nid = 0 ∨ c.nid ∈ st.1
    · rw [candStep_skip st c h]
      exact fun _ hx => hx
    · push_neg at h
      by_cases ht : c.title = ""
      · rw [candStep_drop st c h.1 h.2 ht]
        exact fun x hx => List.mem_cons_of_mem _ hx
      · rw [candStep_add st c h.1 h.2 ht]
        exact fun x hx => List.mem_cons_of_mem _ hx

theorem candFold_seen_mono (cands : List (Option Cand)) :
    ∀ st : List Int × ChannelMap, st.1 ⊆ (cands.foldl candStep st).1 := by
  induction cands with
  | nil => intro st; exact fun _ h => h
  | cons oc rest ih =>
    intro st
    exact List.Subset.trans (candStep_seen_sub st oc) (ih (candStep st oc))

theorem candFold_blocked (cands : List (Option Cand)) :
    ∀ (st : List Int × ChannelMap) (v : Int), v ∈ st.1 →
      itemsOfId (cands.foldl candStep st).2 v = itemsOfId st.2 v := by
  induction cands with
  | nil => intro st v _; rfl
  | cons oc rest ih =>
    intro st v hv
    simp only [List.foldl_cons]
    cases oc with
    | none => exact ih st v hv
    | some c =>
      by_cases h : c.nid = 0 ∨ c.nid ∈ st.1
      · rw [candStep_skip st c h]
        exact ih st v hv
      · push_neg at h
        have hnid : c.nid ≠ v := fun he => h.2 (he ▸ hv)
        by_cases ht : c.title = ""
        · rw [candStep_drop st c h.1 h.2 ht]
          exact ih _ v (List.mem_cons_of_mem _ hv)
        · rw [candStep_add st c h.1 h.2 ht]
          rw [ih _ v (List.mem_cons_of_mem _ hv)]
          exact itemsOfId_mapAppend_ne _ _ _ _ (by simpa [candItem] using hnid)

theorem candFold_firstWins (cands : List (Option Cand)) :
    ∀ (st : List Int × ChannelMap) (v : Int) (c : Cand), v ∉ st.1 →
      itemsOfId st.2 v = [] → v ≠ 0 → firstCandWithId cands v = some c →
      itemsOfId (cands.foldl candStep st).2 v =
        (if c.title = "" then [] else [candItem c]) := by
  induction cands with
  | nil => intro st v c _ _ _ hf; simp [firstCandWithId] at hf
  | cons oc rest ih =>
    intro st v c hv hm h0 hf
    simp only [List.foldl_cons]
    cases oc with
    | none =>
      exact ih st v c hv hm h0 (by simpa [firstCandWithId] using hf)
    | some c0 =>
      by_cases hc0 : c0.nid = v
      · have hcc : c = c0 := by
          simp [firstCandWithId, hc0] at hf
          exact hf.symm
        subst hcc
        have hnot : ¬(c.nid = 0 ∨ c.nid ∈ st.1) := by
          rw [hc0]; push_neg; exact ⟨h0, hv⟩
        push_neg at hnot
        have hvmem : v ∈ c.nid :: st.1 := by rw [hc0]; exact List.mem_cons_self v st.1
        by_cases ht : c.title = ""
        · rw [candStep_drop st c hnot.1 hnot.2 ht]
          rw [candFold_blocked rest _ v hvmem]
          simp [hm, ht]
        · rw [candStep_add st c hnot.1 hnot.2 ht]
          rw [candFold_blocked rest _ v hvmem]
          simp only [if_neg ht]
          exact itemsOfId_mapAppend_eq _ _ _ _ (by simp [candItem, hc0]) hm
      · have hf2 : firstCandWithId rest v = some c := by
          simpa [firstCandWithId, hc0] using hf
        by_cases h : c0.nid = 0 ∨ c0.nid ∈ st.1
        · rw [candStep_skip st c0 h]
          exact ih st v c hv hm h0 hf2
        · push_neg at h
          have hvs : v ∉ c0.nid :: st.1 := by
            intro hmem
            rcases List.mem_cons.mp hmem with he | he
            · exact hc0 he.symm
            · exact hv he
          by_cases ht : c0.title = ""
          · rw [candStep_drop st c0 h.1 h.2 ht]
            exact ih _ v c hvs hm h0 hf2
          · rw [candStep_add st c0 h.1 h.2 ht]
            refine ih _ v c hvs ?_ h0 hf2
            rw [itemsOfId_mapAppend_ne _ _ _ _ (by simpa [candItem] using hc0)]
            exact hm

theorem candFold_mem_seen (cands : List (Option Cand)) :
    ∀ (st : List Int × ChannelMap) (v : Int) (c : Cand), v ≠ 0 →
      firstCandWithId cands v = some c → v ∈ (cands.foldl candStep st).1 := by
  induction cands with
  | nil => intro st v c _ hf; simp [firstCandWithId] at hf
  | cons oc rest ih =>
    intro st v c h0 hf
    simp only [List.foldl_cons]
    cases oc with
    | none => exact ih _ v c h0 (by simpa [firstCandWithId] using hf)
    | some c0 =>
      by_cases hc0 : c0.nid = v
      · by_cases h : c0.nid = 0 ∨ c0.nid ∈ st.1
        · rw [candStep_skip st c0 h]
          rcases h with h | h
          · exact absurd (hc0 ▸ h) h0
          · exact candFold_seen_mono rest st (hc0 ▸ h)
        · push_neg at h
          by_cases ht : c0.title = ""
          · rw [candStep_drop st c0 h.1 h.2 ht]
            exact candFold_seen_mono rest _ (by rw [hc0] at *; exact List.mem_cons_self v _)
          · rw [candStep_add st c0 h.1 h.2 ht]
            exact candFold_seen_mono rest _ (by rw [hc0] at *; exact List.mem_cons_self v _)
      · exact ih _ v c h0 (by simpa [firstCandWithId, hc0] using hf)

/-! ## Lemmas: the id invariant of both phases -/

theorem candFold_invariant (cands : List (Option Cand)) :
    ∀ st : List Int × ChannelMap, (allIds st.2).Nodup →
      (∀ i ∈ allIds st.2, i ∈ st.1 ∧ i ≠ 0) →
      (allIds (cands.foldl candStep st).2).Nodup ∧
        ∀ i ∈ allIds (cands.foldl candStep st).2,
          i ∈ (cands.foldl candStep st).1 ∧ i ≠ 0 := by
  induction cands with
  | nil => intro st h1 h2; exact ⟨h1, h2⟩
  | cons oc rest ih =>
    intro st h1 h2
    simp only [List.foldl_cons]
    cases oc with
    | none => exact ih st h1 h2
    | some c =>
      by_cases h : c.nid = 0 ∨ c.nid ∈ st.1
      · rw [candStep_skip st c h]
        exact ih st h1 h2
      · push_neg at h
        by_cases ht : c.title = ""
        · rw [candStep_drop st c h.1 h.2 ht]
          exact ih _ h1 fun i hi => ⟨List.mem_cons_of_mem _ (h2 i hi).1, (h2 i hi).2⟩
        · rw [candStep_add st c h.1 h.2 ht]
          refine ih _ ?_ ?_
          · rw [(allIds_mapAppend_perm st.2 c.channel (candItem c)).nodup_iff]
            refine List.nodup_cons.mpr ⟨?_, h1⟩
            intro hmem
            exact h.2 (by simpa [candItem] using (h2 _ hmem).1)
          · intro i hi
            rcases (mem_allIds_mapAppend st.2 c.channel (candItem c) i).mp hi with he | hm
            · simp only [candItem] at he
              exact ⟨by simp [he], by simpa [he] using h.1⟩
            · exact ⟨List.mem_cons_of_mem _ (h2 i hm).1, (h2 i hm).2⟩

/-! ## Lemmas: the fallback fold -/

theorem fbStep_cases (st : List Int × ChannelMap) (a : Node) :
    fbStep st a = st ∨
      ∃ v t, v ≠ 0 ∧ v ∉ st.1 ∧ t ≠ "" ∧
        fbStep st a =
          (v :: st.1, mapAppend st.2 "未分类"
            { novelid := v, title := t, author := none, channel := "未分类",
              detail_url := detailUrl v }) := by
  unfold fbStep
  dsimp only
  cases hp : parse_novelid ((getAttr? a "href").getD "") with
  | none => exact Or.inl rfl
  | some v =>
    by_cases h : v = 0 ∨ v ∈ st.1
    · refine Or.inl ?_
      dsimp only
      rw [if_pos]
      simpa [List.elem_iff] using h
    · push_neg at h
      by_cases ht : getTextStrip a = ""
      · refine Or.inl ?_
        dsimp only
        rw [if_neg (by simp [h.1, List.elem_iff, h.2])]
        simp [ht]
      · refine Or.inr ⟨v, getTextStrip a, h.1, h.2, ht, ?_⟩
        dsimp only
        rw [if_neg (by simp [h.1, List.elem_iff, h.2])]
        simp [ht]

theorem fbFold_blocked (anchors : List Node) :
    ∀ (st : List Int × ChannelMap) (v : Int), v ∈ st.1 →
      itemsOfId (anchors.foldl fbStep st).2 v = itemsOfId st.2 v := by
  induction anchors with
  | nil => intro st v _; rfl
  | cons a rest ih =>
    intro st v hv
    simp only [List.foldl_cons]
    rcases fbStep_cases st a with he | ⟨w, t, h0, hw, ht, he⟩
    · rw [he]; exact ih st v hv
    · rw [he, ih _ v (List.mem_cons_of_mem _ hv)]
      refine itemsOfId_mapAppend_ne _ _ _ _ ?_
      intro hc
      simp only at hc
      exact hw (hc.symm ▸ hv)

theorem fbFold_invariant (anchors : List Node) :
    ∀ st : List Int × ChannelMap, (allIds st.2).Nodup →
      (∀ i ∈ allIds st.2, i ∈ st.1 ∧ i ≠ 0) →
      (allIds (anchors.foldl fbStep st).2).Nodup ∧
        ∀ i ∈ allIds (anchors.foldl fbStep st).2,
          i ∈ (anchors.foldl fbStep st).1 ∧ i ≠ 0 := by
  induction anchors with
  | nil => intro st h1 h2; exact ⟨h1, h2⟩
  | cons a rest ih =>
    intro st h1 h2
    simp only [List.foldl_cons]
    rcases fbStep_cases st a with he | ⟨w, t, h0, hw, ht, he⟩
    · rw [he]; exact ih st h1 h2
    · rw [he]
      refine ih _ ?_ ?_
      · rw [(allIds_mapAppend_perm _ _ _).nodup_iff]
        refine List.nodup_cons.mpr ⟨?_, h1⟩
        intro hmem
        exact hw (by simpa using (h2 _ hmem).1)
      · intro i hi
        rcases (mem_allIds_mapAppend _ _ _ i).mp hi with hie | him
        · simp only at hie
          exact ⟨by simp [hie], by simpa [hie] using h0⟩
        · exact ⟨List.mem_cons_of_mem _ (h2 i him).1, (h2 i him).2⟩

/-! ## Lemmas: channel keys -/

/-- The keys of a channel map. -/
def keysOf (m : ChannelMap) : List String := m.map fun p => p.1

theorem keysOf_mapAppend_sub (m : ChannelMap) (ch : String) (it : ToptenItem) :
    keysOf (mapAppend m ch it) ⊆ ch :: keysOf m := by
  induction m with
  | nil => simp [mapAppend, keysOf]
  | cons p rest ih =>
    obtain ⟨c, its⟩ := p
    by_cases h : c = ch
    · rw [mapAppend, if_pos h]
      simp [keysOf, h]
    · rw [mapAppend, if_neg h]
      intro x hx
      simp only [keysOf, List.map_cons, List.mem_cons] at hx
      rcases hx with hx | hx
      · simp [keysOf, hx]
      · rcases List.mem_cons.mp (ih hx) with h1 | h1
        · simp [h1]
        · simp only [keysOf, List.map_cons, List.mem_cons]
          right; right
          simpa [keysOf] using h1

theorem mem_keysOf_mapAppend (m : ChannelMap) (ch : String) (it : ToptenItem)
    (p : String × List ToptenItem) (hp : p ∈ mapAppend m ch it) :
    p.1 = ch ∨ p.1 ∈ keysOf m := by
  have hmem : p.1 ∈ keysOf (mapAppend m ch it) := List.mem_map_of_mem _ hp
  rcases List.mem_cons.mp (keysOf_mapAppend_sub m ch it hmem) with h | h
  · exact Or.inl h
  · exact Or.inr h

theorem keysOf_mapAppend_nodup (m : ChannelMap) (ch : String) (it : ToptenItem) :
    (keysOf m).Nodup → (keysOf (mapAppend m ch it)).Nodup := by
  induction m with
  | nil => intro _; simp [mapAppend, keysOf]
  | cons p rest ih =>
    intro h
    obtain ⟨c, its⟩ := p
    simp only [keysOf, List.map_cons, List.nodup_cons] at h
    by_cases hc : c = ch
    · rw [mapAppend, if_pos hc]
      simp only [keysOf, List.map_cons, List.nodup_cons]
      exact ⟨h.1, h.2⟩
    · rw [mapAppend, if_neg hc]
      simp only [keysOf, List.map_cons, List.nodup_cons]
      refine ⟨?_, ih h.2⟩
      intro hmem
      rcases List.mem_cons.mp (keysOf_mapAppend_sub rest ch it hmem) with h1 | h1
      · exact hc h1
      · exact h.1 h1

theorem fbFold_keys (anchors : List Node) :
    ∀ st : List Int × ChannelMap,
      (∀ p ∈ st.2, p.1 = "未分类") → (keysOf st.2).Nodup →
      (∀ p ∈ (anchors.foldl fbStep st).2, p.1 = "未分类") ∧
        (keysOf (anchors.foldl fbStep st).2).Nodup := by
  induction anchors with
  | nil => intro st h1 h2; exact ⟨h1, h2⟩
  | cons a rest ih =>
    intro st h1 h2
    simp only [List.foldl_cons]
    rcases fbStep_cases st a with he | ⟨w, t, h0, hw, ht, he⟩
    · rw [he]; exact ih st h1 h2
    · rw [he]
      refine ih _ ?_ (keysOf_mapAppend_nodup _ _ _ h2)
      intro p hp
      rcases mem_keysOf_mapAppend _ _ _ p hp with h | h
      · exact h
      · simp only [keysOf, List.mem_map] at h
        obtain ⟨q, hq, hqe⟩ := h
        exact hqe ▸ h1 q hq

theorem nodup_all_eq_length_le_one {α : Type} (l : List α) (a : α)
    (h1 : l.Nodup) (h2 : ∀ x ∈ l, x = a) : l.length ≤ 1 := by
  cases l with
  | nil => simp
  | cons x rest =>
    cases rest with
    | nil => simp
    | cons y rest2 =>
      exfalso
      have hx : x = a := h2 x (by simp)
      have hy : y = a := h2 y (by simp)
      rw [List.nodup_cons] at h1
      exact h1.1 (by simp [hx, hy])

/-! ## Lemmas: word count and tag splitting -/

theorem firstWCRun_props (l : List Char) (run : List Char) (h : firstWCRun l = some run) :
    ∀ c ∈ run, isWCChar c = true ∧ c ∈ l := by
  induction l with
  | nil => simp [firstWCRun] at h
  | cons x rest ih =>
    by_cases hx : isWCChar x = true
    · rw [firstWCRun, if_pos hx] at h
      obtain rfl : x :: rest.takeWhile isWCChar = run := by injection h
      intro c hc
      rcases List.mem_cons.mp hc with rfl | hc
      · exact ⟨hx, List.mem_cons_self _ _⟩
      · exact ⟨List.mem_takeWhile_imp hc,
          List.mem_cons_of_mem _ ((List.takeWhile_prefix _).subset hc)⟩
    · rw [firstWCRun, if_neg hx] at h
      intro c hc
      obtain ⟨h1, h2⟩ := ih h c hc
      exact ⟨h1, List.mem_cons_of_mem _ h2⟩

theorem dedupFS_nodup (l : List String) :
    ∀ seen, (dedupFS l seen).Nodup ∧ ∀ t ∈ dedupFS l seen, t ∉ seen := by
  induction l with
  | nil => intro seen; simp [dedupFS]
  | cons x rest ih =>
    intro seen
    by_cases hx : seen.contains x
    · rw [dedupFS, if_pos hx]
      exact ih seen
    · rw [dedupFS, if_neg hx]
      obtain ⟨ih1, ih2⟩ := ih (x :: seen)
      refine ⟨List.nodup_cons.mpr ⟨?_, ih1⟩, ?_⟩
      · intro hmem
        exact absurd (List.mem_cons_self x seen) (ih2 x hmem)
      · intro t ht
        rcases List.mem_cons.mp ht with rfl | ht
        · exact fun hts => hx (List.elem_iff.mpr hts)
        · exact fun hts => ih2 t ht (List.mem_cons_of_mem _ hts)

theorem dedupFS_sublist (l : List String) : ∀ seen, (dedupFS l seen).Sublist l := by
  induction l with
  | nil => intro seen; simp [dedupFS]
  | cons x rest ih =>
    intro seen
    by_cases hx : seen.contains x
    · rw [dedupFS, if_pos hx]
      exact (ih seen).cons x
    · rw [dedupFS, if_neg hx]
      exact (ih (x :: seen)).cons₂ x

theorem tagParts_ne_empty (s : String) : ∀ t ∈ tagParts s, t ≠ "" := by
  intro t ht
  simp only [tagParts, List.mem_map, List.mem_filter] at ht
  obtain ⟨p, ⟨_, hp⟩, rfl⟩ := ht
  exact fun he => by simp [he] at hp

/-! ## Claim theorems -/

/-- C6: _parse_word_count is total (a Lean function over its input) and:
absent input gives absent; an input with no digit character gives absent
(even when it contains commas, since the comma-only run strips to the empty
string and int() fails); otherwise the first run of digits and half-width or
full-width commas is taken, the commas are stripped, and the remainder is
parsed with int(), absent on parse failure; "12,345字" gives 12345 and the
digit-free "字数不详" gives absent. -/
theorem c6_parse_word_count :
    parseWordCount none = none ∧
    (∀ s : String, (∀ c ∈ s.data, digitVal? c = none) → parseWordCount (some s) = none) ∧
    (∀ (s : String) (run : List Char), firstWCRun s.data = some run →
        parseWordCount (some s) = pyInt ⟨run.filter fun c => !(c = ',' || c = '，')⟩) ∧
    parseWordCount (some "12,345字") = some 12345 ∧
    parseWordCount (some "字数不详") = none := by
  have key : ∀ (s : String) (run : List Char), firstWCRun s.data = some run →
      parseWordCount (some s) = pyInt ⟨run.filter fun c => !(c = ',' || c = '，')⟩ := by
    intro s run hrun
    have hse : s ≠ "" := by
      intro he
      rw [he] at hrun
      simp [firstWCRun] at hrun
    simp [parseWordCount, hse, hrun]
  refine ⟨rfl, ?_, key, by decide, by decide⟩
  intro s hs
  by_cases hse : s = ""
  · simp [parseWordCount, hse]
  · cases hrun : firstWCRun s.data with
    | none => simp [parseWordCount, hse, hrun]
    | some run =>
      have hfilter : run.filter (fun c => !(c = ',' || c = '，')) = [] := by
        rw [List.filter_eq_nil_iff]
        intro c hc
        obtain ⟨h1, h2⟩ := firstWCRun_props s.data run hrun c hc
        have h3 := hs c h2
        simp only [isWCChar, h3, Option.isSome_none, Bool.false_or] at h1
        simp [h1]
      rw [key s run hrun, hfilter]
      rfl

/-- C6 witness: the theorem applied at "字数不详" (digit-free input). -/
theorem c6_witness :
    (∀ c ∈ "字数不详".data, digitVal? c = none) ∧ parseWordCount (some "字数不详") = none :=
  ⟨by decide, c6_parse_word_count.2.1 "字数不详" (by decide)⟩

/-- C7: _split_tags gives absent on absent input and whenever splitting
leaves no fragments (never an empty sequence); otherwise its result is the
first-seen-order dedup of the fragments of the normalized input — with no
empty strings, no duplicates, and order preserved (a sublist of the
fragments); the two specified examples behave as stated. -/
theorem c7_split_tags :
    splitTags none = none ∧
    (∀ s : String, tagParts s = [] → splitTags (some s) = none) ∧
    (∀ s : String, splitTags (some s) ≠ some []) ∧
    (∀ (s : String) (l : List String), splitTags (some s) = some l →
        l = dedupFS (tagParts s) [] ∧ l.Nodup ∧ (∀ t ∈ l, t ≠ "") ∧ l.Sublist (tagParts s)) ∧
    splitTags (some "言情　古代　·　甜文") = some ["言情", "古代", "甜文"] ∧
    splitTags (some "悬疑、悬疑、科幻") = some ["悬疑", "科幻"] := by
  refine ⟨rfl, ?_, ?_, ?_, by decide, by decide⟩
  · intro s hp
    by_cases hs : s = ""
    · simp [splitTags, hs]
    · simp [splitTags, hs, hp, dedupFS]
  · intro s h
    by_cases hs : s = ""
    · simp [splitTags, hs] at h
    · simp only [splitTags, if_neg hs] at h
      by_cases hu : (dedupFS (tagParts s) []).isEmpty
      · simp [hu] at h
      · simp only [hu, Bool.false_eq_true, if_false, Option.some.injEq] at h
        rw [h] at hu
        simp at hu
  · intro s l h
    by_cases hs : s = ""
    · simp [splitTags, hs] at h
    · simp only [splitTags, if_neg hs] at h
      by_cases hu : (dedupFS (tagParts s) []).isEmpty
      · simp [hu] at h
      · simp only [hu, Bool.false_eq_true, if_false, Option.some.injEq] at h
        subst h
        refine ⟨rfl, (dedupFS_nodup (tagParts s) []).1, ?_, dedupFS_sublist (tagParts s) []⟩
        intro t ht
        exact tagParts_ne_empty s t ((dedupFS_sublist (tagParts s) []).subset ht)

/-- C7 witness: the theorem applied at the duplicate-tag input. -/
theorem c7_witness :
    splitTags (some "悬疑、悬疑、科幻") = some ["悬疑", "科幻"] ∧
    (["悬疑", "科幻"] : List String).Nodup :=
  ⟨c7_split_tags.2.2.2.2.2,
   (c7_split_tags.2.2.2.1 "悬疑、悬疑、科幻" ["悬疑", "科幻"]
      c7_split_tags.2.2.2.2.2).2.1⟩

/-- C9: parse_topten and parse_detail are deterministic pure functions of
their (parsed) input document: equal inputs give equal outputs, with no I/O
and no hidden state — both are closed Lean functions of the document alone. -/
theorem c9_parse_pure (d1 d2 : Node) (h : d1 = d2) :
    parse_topten d1 = parse_topten d2 ∧ parse_detail d1 = parse_detail d2 := by
  subst h
  exact ⟨rfl, rfl⟩

/-- C9 witness: the theorem applied at the empty document. -/
theorem c9_witness :
    parse_topten docEmpty = parse_topten docEmpty ∧
    parse_detail docEmpty = parse_detail docEmpty :=
  c9_parse_pure docEmpty docEmpty rfl

/-- C5: in build_dataset, an item whose detail fetch (or the parse applied to
it) fails is still emitted carrying the all-absent NovelDetail() (every field
None, including raw); each emitted item depends only on its own item and its
own fetch result, so the items before and after a failing one are assembled
exactly as if it had succeeded; the channel assembly is the per-item map over
the parsed listing. -/
theorem c5_item_isolation :
    (∀ (fetch : String → Except Unit Node) (b : ToptenItem),
        fetch b.detail_url = Except.error () →
        enrichBook fetch b =
          { novelid := b.novelid, title := b.title, author := b.author,
            channel := b.channel, detail_url := b.detail_url,
            detail := { article_type := none, viewpoint := none, word_count := none,
                        summary := none, tags := none, one_sentence := none,
                        raw := none } }) ∧
    (∀ (f g : String → Except Unit Node) (b : ToptenItem),
        f b.detail_url = g b.detail_url → enrichBook f b = enrichBook g b) ∧
    (∀ (fetch : String → Except Unit Node) (m : ChannelMap),
        buildChannels fetch m = m.map fun p => (p.1, p.2.map (enrichBook fetch))) ∧
    (∀ (fetch : String → Except Unit Node) (listing : Node),
        build_dataset fetch listing =
          (parse_topten listing).map fun p => (p.1, p.2.map (enrichBook fetch))) := by
  have hmap : ∀ (fetch : String → Except Unit Node) (m : ChannelMap),
      buildChannels fetch m = m.map fun p => (p.1, p.2.map (enrichBook fetch)) := by
    intro fetch m
    induction m with
    | nil => rfl
    | cons p rest ih =>
      obtain ⟨c, bs⟩ := p
      have hlist : ∀ bs : List ToptenItem, enrichList fetch bs = bs.map (enrichBook fetch) := by
        intro bs
        induction bs with
        | nil => rfl
        | cons b r ihb => simp [enrichList, ihb]
      simp [buildChannels, hlist, ih]
  refine ⟨?_, ?_, hmap, ?_⟩
  · intro fetch b hf
    simp [enrichBook, hf]
  · intro f g b hfg
    simp [enrichBook, hfg]
  · intro fetch listing
    rw [build_dataset, hmap]

/-- C5 witness: the theorem applied to an always-failing fetch oracle and a
concrete item. -/
theorem c5_witness :
    (fun _ : String => (Except.error () : Except Unit Node))
        (ToptenItem.mk 5 "丙书" none "未分类" (detailUrl 5)).detail_url = Except.error () ∧
    enrichBook (fun _ => Except.error ()) (ToptenItem.mk 5 "丙书" none "未分类" (detailUrl 5)) =
      { novelid := 5, title := "丙书", author := none, channel := "未分类",
        detail_url := detailUrl 5,
        detail := { article_type := none, viewpoint := none, word_count := none,
                    summary := none, tags := none, one_sentence := none, raw := none } } :=
  ⟨rfl, c5_item_isolation.1 (fun _ => Except.error ())
      (ToptenItem.mk 5 "丙书" none "未分类" (detailUrl 5)) rfl⟩

/-- The id invariant of parse_topten: all emitted ids are distinct and none
is 0 (shared groundwork for the uniqueness and zero-id claims). -/
theorem parse_topten_invariant (doc : Node) :
    (allIds (parse_topten doc)).Nodup ∧ ∀ i ∈ allIds (parse_topten doc), i ≠ 0 := by
  have hinv := candFold_invariant (allCands doc) ([], [])
      (by simp [allIds, allItems]) (by intro i hi; simp [allIds, allItems] at hi)
  rw [← containerPhase_eq doc] at hinv
  by_cases hm : (containerPhase doc).2.isEmpty
  · have hpt : parse_topten doc = ((novelAnchors doc).foldl fbStep (containerPhase doc)).2 := by
      simp [parse_topten, hm]
    have hmap : (containerPhase doc).2 = [] := by
      simpa using hm
    have hfb := fbFold_invariant (novelAnchors doc) (containerPhase doc)
        (by rw [hmap]; simp [allIds, allItems])
        (by intro i hi; rw [hmap] at hi; simp [allIds, allItems] at hi)
    rw [hpt]
    exact ⟨hfb.1, fun i hi => (hfb.2 i hi).2⟩
  · have hpt : parse_topten doc = (containerPhase doc).2 := by
      simp [parse_topten, hm]
    rw [hpt]
    exact ⟨hinv.1, fun i hi => (hinv.2 i hi).2⟩

/-- C8: in the channel map parse_topten returns, every item id occurs in at
most one (channel, item) pair: the ids of all items across all buckets are
pairwise distinct. -/
theorem c8_ids_unique (doc : Node) : (allIds (parse_topten doc)).Nodup :=
  (parse_topten_invariant doc).1

/-- C10: parse_novelid parses a detail link with novelid=0 successfully to
0, yet the container step and the fallback step both drop such an entry
unchanged (the falsy check treats 0 like a failed parse), so no extracted
item of any document carries identity 0. -/
theorem c10_zero_identity :
    parse_novelid "onebook.php?novelid=0" = some 0 ∧
    (∀ (ch : String) (st : List Int × ChannelMap) (li a : Node),
        liNovelA li = some a → parse_novelid ((getAttr? a "href").getD "") = some 0 →
        processLi ch st li = st) ∧
    (∀ (st : List Int × ChannelMap) (a : Node),
        parse_novelid ((getAttr? a "href").getD "") = some 0 → fbStep st a = st) ∧
    (∀ (doc : Node) (p : String × List ToptenItem) (it : ToptenItem),
        p ∈ parse_topten doc → it ∈ p.2 → it.novelid ≠ 0) := by
  refine ⟨by decide, ?_, ?_, ?_⟩
  · intro ch st li a ha h0
    simp [processLi, ha, h0]
  · intro st a h0
    simp [fbStep, h0]
  · intro doc p it hp hit
    have hmem : it.novelid ∈ allIds (parse_topten doc) := by
      simp only [allIds, allItems, List.mem_map]
      exact ⟨it, List.mem_flatMap.mpr ⟨p, hp, hit⟩, rfl⟩
    exact (parse_topten_invariant doc).2 _ hmem

/-- C10 witness: the theorem applied to the one-item document, whose item id
5 is indeed non-zero. -/
theorem c10_witness :
    ("未分类", [ToptenItem.mk 5 "丙书" none "未分类" (detailUrl 5)]) ∈ parse_topten docOne ∧
    (ToptenItem.mk 5 "丙书" none "未分类" (detailUrl 5)).novelid ≠ 0 :=
  ⟨by decide,
   c10_zero_identity.2.2.2 docOne ("未分类", [ToptenItem.mk 5 "丙书" none "未分类" (detailUrl 5)])
     (ToptenItem.mk 5 "丙书" none "未分类" (detailUrl 5)) (by decide) (by decide)⟩

/-- C4 counterexample: a listing document with no ul.list_01 container and no
detail links yields an empty channel map — no channel at all, not a single
"未分类" channel. -/
theorem c4_cex :
    ulsWithPrev docEmpty = [] ∧ (parse_topten docEmpty).length = 0 :=
  ⟨rfl, rfl⟩

/-- C4 (amended): on a listing document with no ul.list_01 container,
parse_topten is exactly the whole-document fallback scan: at most one
channel, labeled "未分类", holding the scan's items in document order —
and no channel at all when the scan finds nothing. -/
theorem c4_channel_fallback (doc : Node) (h : ulsWithPrev doc = []) :
    parse_topten doc = fallbackMap doc ∧
    (∀ p ∈ fallbackMap doc, p.1 = "未分类") ∧
    (fallbackMap doc).length ≤ 1 ∧
    (fallbackMap doc ≠ [] → ∃ l, fallbackMap doc = [("未分类", l)]) := by
  have hcp : containerPhase doc = ([], []) := by
    rw [containerPhase, h]
    rfl
  have hpt : parse_topten doc = fallbackMap doc := by
    simp [parse_topten, hcp, fallbackMap]
  have hk := fbFold_keys (novelAnchors doc) ([], [])
      (by intro p hp; simp at hp) (by simp [keysOf])
  have hall : ∀ p ∈ fallbackMap doc, p.1 = "未分类" := fun p hp => hk.1 p hp
  have hlen : (fallbackMap doc).length ≤ 1 := by
    have hkeys : (keysOf (fallbackMap doc)).length ≤ 1 :=
      nodup_all_eq_length_le_one _ "未分类" hk.2
        (by
          intro x hx
          simp only [keysOf, List.mem_map] at hx
          obtain ⟨q, hq, rfl⟩ := hx
          exact hall q hq)
    simpa [keysOf] using hkeys
  refine ⟨hpt, hall, hlen, ?_⟩
  intro hne
  cases hfb : fallbackMap doc with
  | nil => exact absurd hfb hne
  | cons p rest =>
    have hr : rest = [] := by
      have hlen2 : (p :: rest).length ≤ 1 := hfb ▸ hlen
      simp only [List.length_cons] at hlen2
      exact List.eq_nil_of_length_eq_zero (by omega)
    have hp1 : p.1 = "未分类" := hall p (by rw [hfb]; exact List.mem_cons_self _ _)
    refine ⟨p.2, ?_⟩
    rw [hr]
    obtain ⟨p1, p2⟩ := p
    simp only at hp1
    rw [hp1]

/-- C4 witness: the theorem applied to the flat one-link document. -/
theorem c4_witness :
    ulsWithPrev docFlat = [] ∧ parse_topten docFlat = fallbackMap docFlat :=
  ⟨rfl, (c4_channel_fallback docFlat rfl).1⟩

/-- C1 counterexample: in docDup the identity 5 appears in the detail links
of two different list entries, yet the returned item set holds no item with
identity 5 at all (the first entry resolves an empty title after its id is
already recorded as seen, and the duplicate entry is then dropped). -/
theorem c1_cex :
    (((allCands docDup).filterMap id).filter fun c => c.nid = 5).length = 2 ∧
    itemsOfId (parse_topten docDup) 5 = [] :=
  ⟨by decide, by decide⟩

/-- C1 (amended): the returned map holds at most one item per identity; for
any identity v (non-zero, hence resolvable) the first candidate entry with
that identity decides the outcome: a non-empty title yields exactly the item
built from that entry, an empty title yields no item with that identity at
all — the later duplicates are dropped silently either way, globally across
all containers. -/
theorem c1_dedup_first_wins (doc : Node) (v : Int) (c : Cand) (h0 : v ≠ 0)
    (hf : firstCandWithId (allCands doc) v = some c) :
    itemsOfId (parse_topten doc) v = (if c.title = "" then [] else [candItem c]) := by
  have hfold := candFold_firstWins (allCands doc) ([], []) v c (by simp)
      (by simp [itemsOfId, allItems]) h0 hf
  rw [← containerPhase_eq] at hfold
  have hseen := candFold_mem_seen (allCands doc) ([], []) v c h0 hf
  rw [← containerPhase_eq] at hseen
  by_cases hm : (containerPhase doc).2.isEmpty
  · have hpt : parse_topten doc = ((novelAnchors doc).foldl fbStep (containerPhase doc)).2 := by
      simp [parse_topten, hm]
    rw [hpt, fbFold_blocked (novelAnchors doc) (containerPhase doc) v hseen]
    exact hfold
  · have hpt : parse_topten doc = (containerPhase doc).2 := by
      simp [parse_topten, hm]
    rw [hpt]
    exact hfold

/-- C1 witness: the theorem applied to the one-item document, whose single
entry with identity 5 has the non-empty title and is returned exactly once. -/
theorem c1_witness :
    firstCandWithId (allCands docOne) 5 = some ⟨"未分类", 5, "丙书", none⟩ ∧
    itemsOfId (parse_topten docOne) 5 =
      (if (Cand.mk "未分类" 5 "丙书" none).title = "" then []
       else [candItem ⟨"未分类", 5, "丙书", none⟩]) :=
  ⟨by decide,
   c1_dedup_first_wins docOne 5 ⟨"未分类", 5, "丙书", none⟩ (by decide) (by decide)⟩

/-! ## Lemmas: substring and strip facts for the extraction claims -/

theorem leadMatch_refl (l : List Char) : leadMatch l l = true := by
  induction l with
  | nil => rfl
  | cons c rest ih => simp [leadMatch, ih]

theorem leadMatch_append (l r : List Char) : leadMatch (l ++ r) l = true := by
  induction l with
  | nil => simp [leadMatch]
  | cons c rest ih => simp [leadMatch, ih]

theorem strContains_self (s : String) : strContains s s = true := by
  unfold strContains listContainsSeg
  simp [leadMatch_refl]

theorem strContains_left (a b : String) : strContains (a ++ b) a = true := by
  unfold strContains
  show listContainsSeg (a.data ++ b.data) a.data = true
  unfold listContainsSeg
  simp [leadMatch_append]

theorem dropWhile_fix_head (p : Char → Bool) (c : Char) (t : List Char)
    (h : (c :: t).dropWhile p = c :: t) : p c = false := by
  by_cases hp : p c = true
  · exfalso
    rw [List.dropWhile_cons, if_pos hp] at h
    have := congrArg List.length h
    have hle := (List.dropWhile_suffix p (l := t)).length_le
    simp at this
    omega
  · simpa using hp

theorem pyStrip_fix (s : String) (h : pyStrip s = s) :
    s.data.dropWhile isPySpace = s.data ∧
    s.data.reverse.dropWhile isPySpace = s.data.reverse := by
  have hd : pyStripL s.data = s.data := congrArg String.data h
  unfold pyStripL pyStripLeftL at hd
  have hlen1 : (s.data.dropWhile isPySpace).length ≤ s.data.length :=
    (List.dropWhile_suffix _).length_le
  have hlen2 : ((s.data.dropWhile isPySpace).reverse.dropWhile isPySpace).length ≤
      (s.data.dropWhile isPySpace).length := by
    have := (List.dropWhile_suffix isPySpace
      (l := (s.data.dropWhile isPySpace).reverse)).length_le
    simpa using this
  have hlen0 := congrArg List.length hd
  simp only [List.length_reverse] at hlen0
  have hfix1 : s.data.dropWhile isPySpace = s.data := by
    refine (List.dropWhile_suffix isPySpace).eq_of_length ?_
    omega
  rw [hfix1] at hd
  refine ⟨hfix1, ?_⟩
  have := congrArg List.reverse hd
  simpa using this

theorem pyStrip_concat (label value : String) (hl : label ≠ "") (hv : value ≠ "")
    (hls : pyStrip label = label) (hvs : pyStrip value = value) :
    pyStrip (label ++ "：" ++ value) = label ++ "：" ++ value := by
  obtain ⟨hlf, _⟩ := pyStrip_fix label hls
  obtain ⟨_, hvr⟩ := pyStrip_fix value hvs
  have hld : label.data ≠ [] := fun he => hl (String.ext he)
  have hvd : value.data ≠ [] := fun he => hv (String.ext he)
  have hdata : (label ++ "：" ++ value).data = label.data ++ '：' :: value.data := by
    have h1 : (label ++ "：" ++ value).data = (label.data ++ "：".data) ++ value.data := rfl
    rw [h1]
    have h2 : "：".data = ['：'] := rfl
    rw [h2, List.append_assoc]
    rfl
  apply String.ext
  show pyStripL (label ++ "：" ++ value).data = (label ++ "：" ++ value).data
  rw [hdata]

  obtain ⟨c, t, hct⟩ : ∃ c t, label.data = c :: t := by
    cases hcd : label.data with
    | nil => exact absurd hcd hld
    | cons c t => exact ⟨c, t, rfl⟩
  obtain ⟨vc, vt, hvct⟩ : ∃ vc vt, value.data.reverse = vc :: vt := by
    cases hcd : value.data.reverse with
    | nil =>
      exfalso
      exact hvd (by simpa using congrArg List.reverse hcd)
    | cons vc vt => exact ⟨vc, vt, rfl⟩
  have hpc : isPySpace c = false := dropWhile_fix_head _ _ _ (by rw [← hct, hlf])
  have hpvc : isPySpace vc = false := dropWhile_fix_head _ _ _ (by rw [← hvct, hvr])
  unfold pyStripL pyStripLeftL
  have hfront : (label.data ++ '：' :: value.data).dropWhile isPySpace =
      label.data ++ '：' :: value.data := by
    rw [hct]
    simp only [List.cons_append, List.dropWhile_cons, hpc]
    simp
  rw [hfront]
  have hback : (label.data ++ '：' :: value.data).reverse.dropWhile isPySpace =
      (label.data ++ '：' :: value.data).reverse := by
    have hrev : (label.data ++ '：' :: value.data).reverse =
        vc :: (vt ++ '：' :: label.data.reverse) := by
      rw [List.reverse_append, List.reverse_cons]
      rw [show value.data.reverse = vc :: vt from hvct]
      simp
    rw [hrev]
    simp only [List.dropWhile_cons, hpvc]
    simp
  rw [hback]
  simp

theorem normCrlf_nobreak :
    ∀ l : List Char, (∀ c ∈ l, isLineBreak c = false) → normCrlf l = l := by
  intro l
  induction l with
  | nil => intro _; rfl
  | cons c rest ih =>
    intro hnb
    have hc : isLineBreak c = false := hnb c (List.mem_cons_self _ _)
    have hcr : c ≠ '\r' := fun he => by rw [he] at hc; exact absurd hc (by decide)
    cases rest with
    | nil => rfl
    | cons d rest2 =>
      rw [normCrlf]
      rw [if_neg (by simp [hcr])]
      rw [ih fun x hx => hnb x (List.mem_cons_of_mem _ hx)]

theorem pySplitlinesAux_nobreak :
    ∀ (l acc : List Char), (∀ c ∈ l, isLineBreak c = false) →
      acc.reverse ++ l ≠ [] → pySplitlinesAux acc l = [acc.reverse ++ l] := by
  intro l
  induction l with
  | nil =>
    intro acc _ hne
    have hacc : acc ≠ [] := by simpa using hne
    simp [pySplitlinesAux, hacc]
  | cons c rest ih =>
    intro acc hnb hne
    have hc : isLineBreak c = false := hnb c (List.mem_cons_self _ _)
    rw [pySplitlinesAux]
    rw [if_neg (by simp [hc])]
    rw [ih (c :: acc) (fun x hx => hnb x (List.mem_cons_of_mem _ hx)) (by simp)]
    simp

theorem pySplitlines_single (s : String) (hne : s ≠ "")
    (h : ∀ c ∈ s.data, isLineBreak c = false) : pySplitlines s = [s] := by
  unfold pySplitlines
  rw [normCrlf_nobreak s.data h]
  rw [pySplitlinesAux_nobreak s.data [] h
    (by simpa using fun he => hne (String.ext he))]
  simp

theorem searchLabelColon_concat (label value : String) (hl : label ≠ "") (hv : value ≠ "") :
    searchLabelColon label (label ++ "：" ++ value) = some value := by
  have hdata : (label ++ "：" ++ value).data = label.data ++ '：' :: value.data := by
    have h1 : (label ++ "：" ++ value).data = (label.data ++ "：".data) ++ value.data := rfl
    rw [h1]
    have h2 : "：".data = ['：'] := rfl
    rw [h2, List.append_assoc]
    rfl
  have hld : label.data ≠ [] := fun he => hl (String.ext he)
  have hvd : value.data ≠ [] := fun he => hv (String.ext he)
  obtain ⟨c, t, hct⟩ : ∃ c t, label.data = c :: t := by
    cases hcd : label.data with
    | nil => exact absurd hcd hld
    | cons c t => exact ⟨c, t, rfl⟩
  have hmatch : matchLabelAt label.data (label ++ "：" ++ value).data = some value.data := by
    rw [hdata]
    unfold matchLabelAt
    rw [if_pos (leadMatch_append label.data ('：' :: value.data))]
    have hdrop : (label.data ++ '：' :: value.data).drop label.data.length =
        '：' :: value.data := List.drop_left _ _
    rw [hdrop]
    rw [List.dropWhile_cons]
    rw [if_neg (by decide)]
    simp [hvd]
  unfold searchLabelColon
  have hform : (label ++ "：" ++ value).data = c :: (t ++ '：' :: value.data) := by
    rw [hdata, hct]
    rfl
  rw [hform]
  rw [searchLCAux]
  rw [← hform, hmatch]
  rfl

theorem textualTier_of_none (d : Node) (label : String)
    (h : ∀ line ∈ pySplitlines (getTextSep "\n" d), searchLabelColon label line = none) :
    textualTier d label = none := by
  unfold textualTier
  have hn : (pySplitlines (getTextSep "\n" d)).findSome? (lineVerdict label) = none := by
    rw [List.findSome?_eq_none_iff]
    intro line hline
    unfold lineVerdict
    rw [h line hline]
    split <;> rfl
  rw [hn]
  rfl

theorem findVerdict_first (label : String) :
    ∀ (lines : List String) (line rest : String),
      lines.find? (fun ln => strContains ln label) = some line →
      searchLabelColon label line = some rest →
      (lines.findSome? (lineVerdict label)).getD none = emptyToNone (pyStrip rest) := by
  intro lines
  induction lines with
  | nil => intro line rest hf _; simp at hf
  | cons ln rest' ih =>
    intro line rest hf hs
    by_cases hc : strContains ln label = true
    · simp only [List.find?, hc] at hf
      have heq : ln = line := by injection hf
      subst heq
      have hverdict : lineVerdict label ln = some (emptyToNone (pyStrip rest)) := by
        unfold lineVerdict
        rw [if_pos hc, hs]
      rw [List.findSome?_cons, hverdict]
      rfl
    · have hcf : strContains ln label = false := by simpa using hc
      simp only [List.find?, hcf] at hf
      have hverdict : lineVerdict label ln = none := by
        unfold lineVerdict
        rw [if_neg hc]
      rw [List.findSome?_cons, hverdict]
      exact ih line rest hf hs

theorem textualTier_first (d : Node) (label line rest : String)
    (hf : (pySplitlines (getTextSep "\n" d)).find? (fun ln => strContains ln label) =
      some line)
    (hs : searchLabelColon label line = some rest) :
    textualTier d label = emptyToNone (pyStrip rest) := by
  unfold textualTier
  exact findVerdict_first label _ line rest hf hs

/-- The character list of "label：value". -/
theorem concat_data (label value : String) :
    (label ++ "：" ++ value).data = label.data ++ '：' :: value.data := by
  have h1 : (label ++ "：" ++ value).data = (label.data ++ "：".data) ++ value.data := rfl
  rw [h1]
  have h2 : "：".data = ['：'] := rfl
  rw [h2, List.append_assoc]
  rfl

/-- C3: for a label and a non-empty value (each stripped of surrounding
whitespace and free of line breaks), the pair rendered as adjacent table
cells round-trips through the extractor to exactly the value; rendered as
the single text line label：value (full-width colon), the textual tier — and
hence the whole extractor, the structured tier falling through — returns
exactly the value, trimmed; in general the textual tier applies the
label-colon pattern on the first label-containing line and returns absent
when no line matches the pattern. -/
theorem c3_label_value_roundtrip (label value : String)
    (hl : label ≠ "") (hv : value ≠ "")
    (hls : pyStrip label = label) (hvs : pyStrip value = value)
    (hlb : ∀ c ∈ label.data, isLineBreak c = false)
    (hvb : ∀ c ∈ value.data, isLineBreak c = false) :
    extractValueByLabel (tdDoc label value) label = some value ∧
    textualTier (lineDoc label value) label = some value ∧
    extractValueByLabel (lineDoc label value) label = some value ∧
    (∀ d : Node,
        (∀ line ∈ pySplitlines (getTextSep "\n" d), searchLabelColon label line = none) →
        textualTier d label = none) ∧
    (∀ (d : Node) (line rest : String),
        (pySplitlines (getTextSep "\n" d)).find? (fun ln => strContains ln label) =
          some line →
        searchLabelColon label line = some rest →
        textualTier d label = emptyToNone (pyStrip rest)) := by
  have hctx1 : findLabelCtx (tdDoc label value) label =
      some ⟨"td", [Node.tag "td" [] [Node.text value]],
            [Node.text label, Node.tag "td" [] [Node.text value], Node.text value]⟩ := by
    simp [findLabelCtx, tdDoc, findStrInList, findStrInNode, preorderList, preorder,
      strContains_self]
  have hstruct1 : structuredStep (tdDoc label value) label = some (some value) := by
    simp [structuredStep, hctx1, findNextSibTd, isTagNamed, getTextSep, nodeStrings,
      nodeStringsList, joinSep, hvs, hv, emptyToNone]
  have hcontains : strContains (label ++ "：" ++ value) label = true := by
    rw [String.append_assoc]
    exact strContains_left label ("：" ++ value)
  have hctx2 : findLabelCtx (lineDoc label value) label =
      some ⟨"[document]", [], []⟩ := by
    simp [findLabelCtx, lineDoc, findStrInList, findStrInNode, preorderList, preorder,
      hcontains]
  have hstruct2 : structuredStep (lineDoc label value) label = none := by
    simp [structuredStep, hctx2, findNextTSD, isTagIn]
  have hlinene : (label ++ "：" ++ value) ≠ "" := by
    intro he
    have hd := congrArg String.data he
    rw [concat_data] at hd
    simp at hd
  have htext : getTextSep "\n" (lineDoc label value) = label ++ "：" ++ value := by
    have hstr : pyStrip (label ++ "：" ++ value) = label ++ "：" ++ value :=
      pyStrip_concat label value hl hv hls hvs
    simp [getTextSep, lineDoc, nodeStrings, nodeStringsList, hstr, hlinene, joinSep]
  have hlines : pySplitlines (getTextSep "\n" (lineDoc label value)) =
      [label ++ "：" ++ value] := by
    rw [htext]
    apply pySplitlines_single _ hlinene
    intro ch hch
    rw [concat_data] at hch
    rcases List.mem_append.mp hch with h | h
    · exact hlb ch h
    · rcases List.mem_cons.mp h with rfl | h
      · decide
      · exact hvb ch h
  have hverd := searchLabelColon_concat label value hl hv
  have htex : textualTier (lineDoc label value) label = some value := by
    have hff : (pySplitlines (getTextSep "\n" (lineDoc label value))).find?
        (fun ln => strContains ln label) = some (label ++ "：" ++ value) := by
      rw [hlines]
      simp [List.find?, hcontains]
    have hres := textualTier_first (lineDoc label value) label (label ++ "：" ++ value)
      value hff hverd
    rw [hvs] at hres
    rw [hres]
    simp [emptyToNone, hv]
  refine ⟨?_, htex, ?_, ?_, ?_⟩
  · simp [extractValueByLabel, hstruct1]
  · simp [extractValueByLabel, hstruct2, htex]
  · intro d hnone
    exact textualTier_of_none d label hnone
  · intro d line rest hf hs
    exact textualTier_first d label line rest hf hs

/-- C3 witness: the theorem applied at a concrete label/value pair, via both
renderings. -/
theorem c3_witness :
    (pyStrip "文章类型" = "文章类型" ∧ pyStrip "原创-言情" = "原创-言情") ∧
    extractValueByLabel (tdDoc "文章类型" "原创-言情") "文章类型" = some "原创-言情" ∧
    textualTier (lineDoc "文章类型" "原创-言情") "文章类型" = some "原创-言情" :=
  ⟨⟨by decide, by decide⟩,
   (c3_label_value_roundtrip "文章类型" "原创-言情" (by decide) (by decide) (by decide)
      (by decide) (by decide) (by decide)).1,
   (c3_label_value_roundtrip "文章类型" "原创-言情" (by decide) (by decide) (by decide)
      (by decide) (by decide) (by decide)).2.1⟩

end Jjwxc
